import Mathlib

/-!
# Verification of the swagger-tools specification engine

A shallow embedding, in Lean 4, of the core of the `swagger-tools` browser
bundle (`src/browser/swagger-tools-min.js`): the runtime constraint
validator (`validateSchemaConstraints` and the individual `validate*`
helpers), the content-type gate (`validateContentType`), the definition
registry's inheritance-lineage walker and its cyclical-inheritance
reporting, model composition, the content-addressed specification
registry behind `resolve`, and the order-preserving asynchronous gather
used for sub-document validation.

JavaScript values are embedded as an inductive `JVal` (booleans, strings,
rational numbers, arrays, plain objects); `undefined` is represented by
`Option`.  JavaScript exceptions carrying a `code`/`message` pair
(`failedValidation` errors) are embedded as an `Option Finding` /
`Except Finding` result.  Numbers are modelled as rationals: the source's
numeric comparisons are exact on every input considered here, and the
`NaN`/`undefined` comparison behaviour (every comparison false) is
modelled by `Option Rat` with comparisons that are false on `none`.
-/

namespace SwaggerTools

/-- One structured validation finding: a stable code and a human message,
as produced by the throwing helpers in `validators.js` (`s(code, message)`). -/
structure Finding where
  code : String
  message : String
deriving DecidableEq, Repr

/-- A validation report: `{errors: [...], warnings: [...]}` together with the
path each finding was attached to. -/
structure Report where
  errors : List (Finding × List String)
  warnings : List (Finding × List String)
deriving DecidableEq, Repr

/-- `l(...)` in `specs.js` restricted to a plain report: a report counts as
invalid when it holds at least one error or warning. -/
def reportNonEmpty (r : Report) : Bool :=
  r.errors.length + r.warnings.length > 0

/-! ## The content-type gate (`validateContentType`) -/

/-- `_.union(xs, ys)`: concatenation with duplicates removed, keeping the
first occurrence of each element, as the lodash `union` used by
`validateContentType` does. -/
def lodashUnion (xs ys : List String) : List String :=
  (xs ++ ys).foldl (fun acc x => if x ∈ acc then acc else acc ++ [x]) []

/-- The request data `validateContentType` reads: the `content-type` header
(absent headers become `none`) and the HTTP method. -/
structure CTReq where
  contentType : Option String
  method : String
deriving DecidableEq, Repr

/-- Comma-space join used in the gate's error message (`r.join(", ")`). -/
def joinComma : List String → String
  | [] => ""
  | [x] => x
  | x :: xs => x ++ ", " ++ joinComma xs

/-- The header cleanup `a.split(";")[0]`: everything from the first `;` on
is dropped (e.g. a `charset` parameter). -/
def stripSuffix (a : String) : String := String.mk (a.toList.takeWhile fun c => c ≠ ';')

/-- `validateContentType(gl, co, req)` from `validators.js`: defaults a
missing header to `application/octet-stream`, strips everything from the
first `;` on, and throws exactly when the union of operation-declared and
globally-declared consumes is non-empty, the method is `POST` or `PUT`,
and the stripped header is not in the union.  `gl` is the first source
argument (global consumes), `co` the second (operation consumes); the
union is `_.union(co, gl)`.  The result is `some message` for a throw and
`none` for a pass. -/
def validateContentType (gl co : List String) (req : CTReq) : Option String :=
  let a := req.contentType.getD "application/octet-stream"
  let r := lodashUnion co gl
  let a := stripSuffix a
  if r.length > 0 ∧ req.method ∈ ["POST", "PUT"] ∧ a ∉ r then
    some ("Invalid content type (" ++ a ++ ").  These are valid: " ++ joinComma r)
  else
    none

/-! ## JavaScript values and numeric primitives

The constraint validator receives already-parsed JavaScript data: booleans,
strings, numbers, arrays, and plain objects.  `undefined` is `Option.none`
at the use sites.  Numbers are modelled as rationals (exact arithmetic);
`NaN` is modelled as `Option.none` with all comparisons false on it. -/

/-- A JavaScript value as seen by the validators. -/
inductive JVal where
  | vBool : Bool → JVal
  | vStr : String → JVal
  | vNum : Rat → JVal
  | vArr : List JVal → JVal
  | vObj : List (String × JVal) → JVal

mutual

/-- JavaScript strict equality `===` on validator data (scalars compared by
value; the arrays and objects appearing in `enum` constraints are compared
structurally here). -/
def jvalBEq : JVal → JVal → Bool
  | .vBool a, .vBool b => a == b
  | .vStr a, .vStr b => a == b
  | .vNum a, .vNum b => a == b
  | .vArr a, .vArr b => jvalListBEq a b
  | .vObj a, .vObj b => jvalObjBEq a b
  | _, _ => false

/-- Elementwise equality of value lists. -/
def jvalListBEq : List JVal → List JVal → Bool
  | [], [] => true
  | x :: xs, y :: ys => jvalBEq x y && jvalListBEq xs ys
  | _, _ => false

/-- Elementwise equality of key/value lists. -/
def jvalObjBEq : List (String × JVal) → List (String × JVal) → Bool
  | [], [] => true
  | (k1, v1) :: xs, (k2, v2) :: ys => k1 == k2 && jvalBEq v1 v2 && jvalObjBEq xs ys
  | _, _ => false

end

/-- Character of a decimal digit. -/
def digitChar (k : Nat) : Char := Char.ofNat (48 + k)

/-- Decimal digits of the fractional part of `r / d`, up to `fuel` digits
(the expansions arising here all terminate well within the fuel). -/
def fracDigits : Nat → Nat → Nat → List Char
  | 0, _, _ => []
  | _ + 1, 0, _ => []
  | fuel + 1, r, d => digitChar (r * 10 / d) :: fracDigits fuel (r * 10 % d) d

/-- JavaScript `Number.prototype.toString` on an (exact) number: integers
print without a decimal point, other values print their decimal expansion. -/
def ratToString (q : Rat) : String :=
  let sign := if q < 0 then "-" else ""
  let n := q.num.natAbs
  let d := q.den
  if n % d = 0 then sign ++ toString (n / d)
  else sign ++ toString (n / d) ++ "." ++ String.mk (fracDigits 30 (n % d) d)

mutual

/-- JavaScript `String(v)` coercion: booleans print `true`/`false`, arrays
join their elements with `,`, plain objects print `[object Object]`. -/
def jsToString : JVal → String
  | .vBool b => if b then "true" else "false"
  | .vStr s => s
  | .vNum q => ratToString q
  | .vArr l => jsToStringList l
  | .vObj _ => "[object Object]"

/-- Array elements joined with `,`, as `Array.prototype.toString` does. -/
def jsToStringList : List JVal → String
  | [] => ""
  | [x] => jsToString x
  | x :: xs => jsToString x ++ "," ++ jsToStringList xs

end

/-- Whitespace skipped by `parseInt`/`parseFloat`. -/
def isWs (c : Char) : Bool := c = ' ' ∨ c = '\t' ∨ c = '\n' ∨ c = '\r'

/-- Optional leading sign. -/
def parseSign : List Char → Int × List Char
  | [] => (1, [])
  | c :: r => if c = '-' then (-1, r) else if c = '+' then (1, r) else (1, c :: r)

/-- Value of a run of decimal digits. -/
def digitsVal (ds : List Char) : Nat :=
  ds.foldl (fun a c => a * 10 + (c.toNat - 48)) 0

/-- JavaScript `parseInt(s, 10)`: skip whitespace, optional sign, then the
longest leading run of decimal digits; `NaN` (here `none`) only when that
run is empty.  Trailing garbage is ignored — `parseInt` accepts prefixes. -/
def parseIntStr (s : String) : Option Int :=
  let cs := s.toList.dropWhile isWs
  let (sg, cs) := parseSign cs
  let ds := cs.takeWhile Char.isDigit
  if ds.isEmpty then none else some (sg * (digitsVal ds : Int))

/-- JavaScript `parseFloat(s)`: skip whitespace, optional sign, longest
leading decimal literal `digits[.digits]` / `.digits`; `NaN` when no digit
is found.  Trailing garbage is ignored.  (Exponent notation, `Infinity`
and hex forms are outside the documents considered and are not modelled.) -/
def parseFloatStr (s : String) : Option Rat :=
  let cs := s.toList.dropWhile isWs
  let (sg, cs) := parseSign cs
  let ip := cs.takeWhile Char.isDigit
  let rest := cs.drop ip.length
  let fp := if rest.head? = some '.' then rest.tail.takeWhile Char.isDigit else []
  if ip.isEmpty ∧ fp.isEmpty then none
  else some ((sg : Rat) * ((digitsVal ip : Rat) + (digitsVal fp : Rat) / ((10 : Rat) ^ fp.length)))

/-- Full-string numeric parse, as the implicit `Number(s)` coercion behind
the `%` operator requires: the whole (trimmed) string must be a decimal
literal. -/
def fullParseRat (s : String) : Option Rat :=
  let (sg, cs) := parseSign s.toList
  let ip := cs.takeWhile Char.isDigit
  let rest := cs.drop ip.length
  match rest with
  | [] => if ip.isEmpty then none else some ((sg : Rat) * (digitsVal ip : Rat))
  | '.' :: r =>
    let fp := r.takeWhile Char.isDigit
    if (ip.isEmpty ∧ fp.isEmpty) ∨ r.drop fp.length ≠ [] then none
    else some ((sg : Rat) * ((digitsVal ip : Rat) + (digitsVal fp : Rat) / ((10 : Rat) ^ fp.length)))
  | _ => none

/-- `parseInt(v, 10)` on a JavaScript value: the value is coerced to a
string first. -/
def parseIntJ (v : JVal) : Option Int := parseIntStr (jsToString v)

/-- `parseFloat(v)` on a JavaScript value. -/
def parseFloatJ (v : JVal) : Option Rat := parseFloatStr (jsToString v)

/-- Leading and trailing whitespace removed, as `Number(...)` tolerates. -/
def trimWs (s : String) : String :=
  String.mk (((s.toList.dropWhile isWs).reverse.dropWhile isWs).reverse)

/-- JavaScript `Number(v)` coercion (`none` = `NaN`): numbers unchanged,
booleans to 0/1, strings and arrays through a full-string parse with the
empty (trimmed) string becoming 0, objects to `NaN`. -/
def jsToNumber : JVal → Option Rat
  | .vNum q => some q
  | .vBool b => some (if b then 1 else 0)
  | .vStr s => if trimWs s = "" then some 0 else fullParseRat (trimWs s)
  | .vArr l =>
    let s := jsToString (.vArr l)
    if trimWs s = "" then some 0 else fullParseRat (trimWs s)
  | .vObj _ => none

/-- Truncation toward zero, as JavaScript's `%` divides. -/
def truncRat (q : Rat) : Int := if 0 ≤ q then ⌊q⌋ else ⌈q⌉

/-- JavaScript `e % n` on validator inputs: both sides coerced to numbers,
`NaN` (`none`) when either fails to coerce or the divisor is zero, else the
truncated-division remainder. -/
def jsMod (e : JVal) (n : Rat) : Option Rat :=
  match jsToNumber e with
  | none => none
  | some a => if n = 0 then none else some (a - n * (truncRat (a / n) : Rat))

/-- `e.length` as the validators read it: defined on arrays and strings,
`undefined` (`none`) otherwise, so comparisons against it are then false. -/
def jsLength : JVal → Option Nat
  | .vArr l => some l.length
  | .vStr s => some s.length
  | _ => none

/-- `Object.keys(e).length` guarded by `isPlainObject`: 0 for non-objects. -/
def numProps : JVal → Nat
  | .vObj l => l.length
  | _ => 0

/-- `a > b` where either side may be `undefined`/`NaN`: false unless both
are real numbers. -/
def optGT (a b : Option Rat) : Bool :=
  match a, b with
  | some x, some y => x > y
  | _, _ => false

/-- `a >= b` with the same `undefined`/`NaN` behaviour. -/
def optGE (a b : Option Rat) : Bool :=
  match a, b with
  | some x, some y => x ≥ y
  | _, _ => false

/-! ## Date and date-time format checks (`validators.js` regexes) -/

/-- The `date` format check: the string (value coerced to string) must match
`^(\d{4})-(\d{2})-(\d{2})$` with month `01`–`12` and day `01`–`31` (the
source compares the two-digit capture groups as strings, which on fixed
width equals numeric comparison). -/
def isDateStr (s : String) : Bool :=
  match s.toList with
  | [y1, y2, y3, y4, '-', m1, m2, '-', d1, d2] =>
    ([y1, y2, y3, y4, m1, m2, d1, d2].all Char.isDigit) ∧
      (let mv := digitsVal [m1, m2]
       let dv := digitsVal [d1, d2]
       1 ≤ mv ∧ mv ≤ 12 ∧ 1 ≤ dv ∧ dv ≤ 31)
  | _ => false

/-- The timezone alternative `(z|[+-]\d{2}:\d{2})` anchored at the end. -/
def isTzTail (cs : List Char) : Bool :=
  match cs with
  | ['z'] => true
  | [s, a, b, ':', c, d] => (s = '+' ∨ s = '-') ∧ [a, b, c, d].all Char.isDigit
  | _ => false

/-- The tail of the time regex after `hh:mm:ss`: an optional group of any
single character followed by one or more digits (the source's unescaped
`.` matches any character), then `z` or a `±hh:mm` offset, anchored. -/
def isTimeTail (cs : List Char) : Bool :=
  if isTzTail cs then true
  else
    match cs with
    | _ :: r =>
      let ds := r.takeWhile Char.isDigit
      !ds.isEmpty && isTzTail (r.drop ds.length)
    | [] => false

/-- The time part check `^(\d{2}):(\d{2}):(\d{2})(.\d+)?(z|[+-]\d{2}:\d{2})$`
with hour ≤ 23, minute ≤ 59, second ≤ 59 (again two-digit string
comparisons). -/
def isTimeStr (s : String) : Bool :=
  match s.toList with
  | h1 :: h2 :: ':' :: m1 :: m2 :: ':' :: s1 :: s2 :: rest =>
    ([h1, h2, m1, m2, s1, s2].all Char.isDigit) ∧
      digitsVal [h1, h2] ≤ 23 ∧ digitsVal [m1, m2] ≤ 59 ∧ digitsVal [s1, s2] ≤ 59 ∧
      isTimeTail rest
  | _ => false

/-- ASCII lower-casing (the date-time values in scope are ASCII; full
Unicode case mapping is not needed for them). -/
def toLowerChar (c : Char) : Char :=
  if 'A' ≤ c ∧ c ≤ 'Z' then Char.ofNat (c.toNat + 32) else c

/-- `split(sep)` on character lists (the JavaScript `String.prototype.split`
with a single-character separator). -/
def splitOnChar (c : Char) : List Char → List (List Char)
  | [] => [[]]
  | x :: xs =>
    let r := splitOnChar c xs
    if x = c then [] :: r
    else
      match r with
      | [] => [[x]]
      | h :: t => (x :: h) :: t

/-- The `date-time` format check: lower-case the value, split on every `t`;
the part before the first `t` must be a valid date and the part between the
first and second `t` (if any) a valid time.  With no `t` present the time
part is `undefined` and the check fails. -/
def isDateTimeStr (s : String) : Bool :=
  match splitOnChar 't' (s.toList.map toLowerChar) with
  | date :: time :: _ => isDateStr (String.mk date) ∧ isTimeStr (String.mk time)
  | _ => false

/-! ## The individual constraint validators (`validators.js`)

Each `validate*` helper either returns (no finding) or throws a
`failedValidation` error with a code and message; the throw is embedded as
`some finding`. -/

/-- The type name as it appears inside messages (string concatenation with
`undefined` prints `undefined`). -/
def tyDisplay (ty : Option String) : String := ty.getD "undefined"

/-- `validateArrayType`: a constraint node of type `array` must carry an
`items` definition.  `itemsPresent` is whether `n.items` is defined. -/
def validateArrayType (ty : Option String) (itemsPresent : Bool) : Option Finding :=
  if ty = some "array" ∧ ¬itemsPresent then
    some ⟨"OBJECT_MISSING_REQUIRED_PROPERTY", "Missing required property: items"⟩
  else none

/-- Scalar type/format acceptance, the `switch` in `validateTypeAndFormat`:
booleans accept literal booleans and the strings `false`/`true`; integer
and number accept anything whose `parseInt`/`parseFloat` is not `NaN`;
strings with format `date`/`date-time` run the calendar checks (on the
value coerced to a string); every other declared type, and an undeclared
type, accepts anything. -/
def scalarTypeOk (v : JVal) (ty fmt : Option String) : Bool :=
  match ty with
  | some "boolean" =>
    match v with
    | .vBool _ => true
    | .vStr s => s = "false" ∨ s = "true"
    | _ => false
  | some "integer" => (parseIntJ v).isSome
  | some "number" => (parseFloatJ v).isSome
  | some "string" =>
    match fmt with
    | some "date" => isDateStr (jsToString v)
    | some "date-time" => isDateTimeStr (jsToString v)
    | _ => true
  | _ => true

mutual

/-- `validateTypeAndFormat` in its recursive test mode (fourth argument
`true`): an array value checks every element recursively, throwing an
indexed `INVALID_TYPE` at the first failing element; a scalar reports its
acceptance as a boolean without throwing. -/
def vtfTest : JVal → Option String → Option String → Except Finding Bool
  | .vArr l, ty, fmt => vtfList l ty fmt 0
  | v, ty, fmt => .ok (scalarTypeOk v ty fmt)

/-- The element loop of `validateTypeAndFormat` on an array value, carrying
the element index for the message. -/
def vtfList : List JVal → Option String → Option String → Nat → Except Finding Bool
  | [], _, _, _ => .ok true
  | el :: rest, ty, fmt, j =>
    match vtfTest el ty fmt with
    | .error f => .error f
    | .ok d =>
      if d then vtfList rest ty fmt (j + 1)
      else .error ⟨"INVALID_TYPE",
        "Value at index " ++ toString j ++ " is not a valid " ++ tyDisplay ty ++ ": " ++
          jsToString el⟩

end

/-- `validateTypeAndFormat` as `validateSchemaConstraints` invokes it
(fourth argument absent): a scalar failure throws `INVALID_TYPE` with the
format woven into the message. -/
def validateTypeAndFormat (v : JVal) (ty fmt : Option String) : Option Finding :=
  match vtfTest v ty fmt with
  | .error f => some f
  | .ok d =>
    if d then none
    else some ⟨"INVALID_TYPE",
      "Not a valid " ++ (match fmt with | none => "" | some f => f ++ " ") ++
        tyDisplay ty ++ ": " ++ jsToString v⟩

/-- `validateEnum`: with an `enum` constraint present, the value must be
strictly equal (`===`, `indexOf`) to one of its members. -/
def validateEnum (e : JVal) (en : Option (List JVal)) : Option Finding :=
  match en with
  | none => none
  | some l =>
    if l.any (jvalBEq e) then none
    else some ⟨"ENUM_MISMATCH",
      "Not an allowable value (" ++ joinComma (l.map jsToString) ++ "): " ++ jsToString e⟩

/-- The numeric reading of the value inside `validateMaximum` /
`validateMinimum`: `parseInt` for declared type `integer`, `parseFloat` for
`number`, and `undefined` (all comparisons false) for any other type. -/
def numForType (e : JVal) (ty : Option String) : Option Rat :=
  if ty = some "integer" then (parseIntJ e).map fun i => (i : Rat)
  else if ty = some "number" then parseFloatJ e
  else none

/-- `validateMaximum`: code `MAXIMUM_EXCLUSIVE` exactly when the exclusive
flag is literally `true`; with the flag set the bound itself is also
rejected.  The bound is read with `parseFloat` (string-encoded bounds
parse), and an unparseable bound or value makes every comparison false. -/
def validateMaximum (e : JVal) (mx : Option JVal) (ty : Option String)
    (excl : Option Bool) : Option Finding :=
  let kind := if excl = some true then "MAXIMUM_EXCLUSIVE" else "MAXIMUM"
  let a := excl.getD false
  let o := numForType e ty
  match mx with
  | none => none
  | some m =>
    if a ∧ optGE o (parseFloatJ m) then
      some ⟨kind, "Greater than or equal to the configured maximum (" ++ jsToString m ++
        "): " ++ jsToString e⟩
    else if optGT o (parseFloatJ m) then
      some ⟨kind, "Greater than the configured maximum (" ++ jsToString m ++ "): " ++
        jsToString e⟩
    else none

/-- `validateMaxItems`. -/
def validateMaxItems (e : JVal) (n : Option Rat) : Option Finding :=
  match n, jsLength e with
  | some bound, some len =>
    if (len : Rat) > bound then
      some ⟨"ARRAY_LENGTH_LONG",
        "Array is too long (" ++ toString len ++ "), maximum " ++ ratToString bound⟩
    else none
  | _, _ => none

/-- `validateMaxLength`. -/
def validateMaxLength (e : JVal) (n : Option Rat) : Option Finding :=
  match n, jsLength e with
  | some bound, some len =>
    if (len : Rat) > bound then
      some ⟨"MAX_LENGTH",
        "String is too long (" ++ toString len ++ " chars), maximum " ++ ratToString bound⟩
    else none
  | _, _ => none

/-- `validateMaxProperties` (non-objects count zero properties). -/
def validateMaxProperties (e : JVal) (n : Option Rat) : Option Finding :=
  match n with
  | some bound =>
    if (numProps e : Rat) > bound then
      some ⟨"MAX_PROPERTIES",
        "Number of properties is too many (" ++ toString (numProps e) ++
          " properties), maximum " ++ ratToString bound⟩
    else none
  | none => none

/-- `validateMinimum`, mirror of `validateMaximum`. -/
def validateMinimum (e : JVal) (mn : Option JVal) (ty : Option String)
    (excl : Option Bool) : Option Finding :=
  let kind := if excl = some true then "MINIMUM_EXCLUSIVE" else "MINIMUM"
  let a := excl.getD false
  let o := numForType e ty
  match mn with
  | none => none
  | some m =>
    if a ∧ optGE (parseFloatJ m) o then
      some ⟨kind, "Less than or equal to the configured minimum (" ++ jsToString m ++
        "): " ++ jsToString e⟩
    else if optGT (parseFloatJ m) o then
      some ⟨kind, "Less than the configured minimum (" ++ jsToString m ++ "): " ++
        jsToString e⟩
    else none

/-- `validateMinItems`. -/
def validateMinItems (e : JVal) (n : Option Rat) : Option Finding :=
  match n, jsLength e with
  | some bound, some len =>
    if (len : Rat) < bound then
      some ⟨"ARRAY_LENGTH_SHORT",
        "Array is too short (" ++ toString len ++ "), minimum " ++ ratToString bound⟩
    else none
  | _, _ => none

/-- `validateMinLength`. -/
def validateMinLength (e : JVal) (n : Option Rat) : Option Finding :=
  match n, jsLength e with
  | some bound, some len =>
    if (len : Rat) < bound then
      some ⟨"MIN_LENGTH",
        "String is too short (" ++ toString len ++ " chars), minimum " ++ ratToString bound⟩
    else none
  | _, _ => none

/-- `validateMinProperties`. -/
def validateMinProperties (e : JVal) (n : Option Rat) : Option Finding :=
  match n with
  | some bound =>
    if bound > (numProps e : Rat) then
      some ⟨"MIN_PROPERTIES",
        "Number of properties is too few (" ++ toString (numProps e) ++
          " properties), minimum " ++ ratToString bound⟩
    else none
  | none => none

/-- `validateMultipleOf`: exact remainder-zero arithmetic; a `NaN` remainder
(unparseable value, or zero divisor) is not `0` and therefore throws. -/
def validateMultipleOf (e : JVal) (n : Option Rat) : Option Finding :=
  match n with
  | none => none
  | some d =>
    if jsMod e d = some 0 then none
    else some ⟨"MULTIPLE_OF", "Not a multiple of " ++ ratToString d⟩

/-- `validatePattern`: `rmatch s pat` stands for the JavaScript
`s.match(new RegExp(pat)) !== null`; the regular-expression engine itself
is an environment primitive and is kept abstract. -/
def validatePattern (rmatch : String → String → Bool) (e : JVal)
    (pat : Option String) : Option Finding :=
  match pat with
  | none => none
  | some p =>
    if rmatch (jsToString e) p then none
    else some ⟨"PATTERN", "Does not match required pattern: " ++ p⟩

/-- lodash `_.uniq`: duplicates removed keeping first occurrences, under
strict equality. -/
def uniqList (l : List JVal) : List JVal :=
  l.foldl (fun acc x => if acc.any (jvalBEq x) then acc else acc ++ [x]) []

/-- `validateUniqueItems`: runs whenever `uniqueItems` is present (even as
`false`); arrays (and strings, as array-likes) must have as many unique
members as members.  A non-array value's `length` is `undefined`, which is
never `===` the numeric `uniq` length, so the check throws on it. -/
def validateUniqueItems (e : JVal) (n : Option Bool) : Option Finding :=
  match n with
  | none => none
  | some _ =>
    let ok : Bool :=
      match e with
      | .vArr l => (uniqList l).length == l.length
      | .vStr s => (uniqList (s.toList.map fun c => .vStr (String.mk [c]))).length == s.length
      | _ => false
    if ok then none
    else some ⟨"ARRAY_UNIQUE",
      "Does not allow duplicate values: " ++
        (match e with
         | .vArr l => String.intercalate ", " (l.map jsToString)
         | _ => jsToString e)⟩

/-! ## `validateSchemaConstraints` -/

/-- An `items` sub-schema as the document may declare it.  The source only
ever reads `items.type` and `items.format`; the `enum` field (standing for
the items' own constraint set beyond type and format) is carried here
precisely because the code ignores it when type-checking array elements. -/
structure ItemsNode where
  type : Option String := none
  format : Option String := none
  enum : Option (List JVal) := none

/-- The fields of one constraint node that `validateSchemaConstraints`
reads.  `items` carries the nested items sub-schema;
`default12` is the Swagger 1.2 `defaultValue` field and `default20` the
2.0 `default` field. -/
structure CNodeCore where
  type : Option String := none
  format : Option String := none
  items : Option ItemsNode := none
  enum : Option (List JVal) := none
  maximum : Option JVal := none
  exclusiveMaximum : Option Bool := none
  maxItems : Option Rat := none
  maxLength : Option Rat := none
  maxProperties : Option Rat := none
  minimum : Option JVal := none
  exclusiveMinimum : Option Bool := none
  minItems : Option Rat := none
  minLength : Option Rat := none
  minProperties : Option Rat := none
  multipleOf : Option Rat := none
  pattern : Option String := none
  uniqueItems : Option Bool := none
  default12 : Option JVal := none
  default20 : Option JVal := none

/-- A constraint node with the optional nested `schema` child that 2.0
parameter nodes carry. -/
inductive CNode where
  | mk (core : CNodeCore) (schema : Option CNode)

/-- The unwrapping loop at the top of `validateSchemaConstraints`: descend
into `schema` children, appending a `schema` path segment per level; the
innermost node's constraints are the ones validated. -/
def unwrapSchema : CNode → List String → CNodeCore × List String
  | .mk core none, path => (core, path)
  | .mk _ (some s), path => unwrapSchema s (path ++ ["schema"])

/-- The type/format dispatch inside `validateSchemaConstraints`: for an
array-typed node (whose `items` is necessarily present at this point) the
elements are checked against the items' declared type, and against the
items' format when present, else the node's own format. -/
def typeFormatCheck (n : CNodeCore) (a : JVal) : Option Finding :=
  if n.type = some "array" then
    match n.items with
    | none => validateTypeAndFormat a n.type n.format
    | some itm =>
      validateTypeAndFormat a itm.type
        (if itm.format.isSome then itm.format else n.format)
  else validateTypeAndFormat a n.type n.format

/-- The `try` body of `validateSchemaConstraints` once a defined value `a`
is in hand: the thirteen checks run in source order and the first throw
wins (JavaScript exception propagation gives at most one finding per
invocation). -/
def checkValueCore (rmatch : String → String → Bool) (n : CNodeCore) (a : JVal) :
    Option Finding :=
  (typeFormatCheck n a).orElse fun _ =>
  (validateEnum a n.enum).orElse fun _ =>
  (validateMaximum a n.maximum n.type n.exclusiveMaximum).orElse fun _ =>
  (validateMaxItems a n.maxItems).orElse fun _ =>
  (validateMaxLength a n.maxLength).orElse fun _ =>
  (validateMaxProperties a n.maxProperties).orElse fun _ =>
  (validateMinimum a n.minimum n.type n.exclusiveMinimum).orElse fun _ =>
  (validateMinItems a n.minItems).orElse fun _ =>
  (validateMinLength a n.minLength).orElse fun _ =>
  (validateMinProperties a n.minProperties).orElse fun _ =>
  (validateMultipleOf a n.multipleOf).orElse fun _ =>
  (validatePattern rmatch a n.pattern).orElse fun _ =>
  validateUniqueItems a n.uniqueItems

/-- `validateSchemaConstraints(version, schema, path, value)`: unwrap
nested `schema` nodes, run the array-items self-check, substitute the
dialect's default when the value is absent (recording the extra path
segment), return silently when even the default is absent, and otherwise
run the ordered checks; a thrown finding is decorated with the accumulated
path. -/
def validateSchemaConstraints (ver : String) (rmatch : String → String → Bool)
    (node : CNode) (path : List String) (value : Option JVal) :
    Option (Finding × List String) :=
  let (n, p) := unwrapSchema node path
  match validateArrayType n.type n.items.isSome with
  | some f => some (f, p)
  | none =>
    let (a, p) : Option JVal × List String :=
      match value with
      | some v => (some v, p)
      | none =>
        (if ver = "1.2" then n.default12 else n.default20,
         p ++ [if ver = "1.2" then "defaultValue" else "default"])
    match a with
    | none => none
    | some a => (checkValueCore rmatch n a).map fun f => (f, p)

/-! ## Definition registry: inheritance lineage and cyclical detection

`specs.js` tracks one definition node per model (`{references, parents,
lineage, cyclical}`).  For the Swagger 1.2 dialect, a model's `subTypes`
list makes it a parent of each listed child; the walker `c` accumulates
ancestors depth-first and stops a branch when the start node reappears.
The JavaScript walker is unbounded recursion; it is embedded with a fuel
parameter, and the termination claims are stated as fuel-independence. -/

/-- One Swagger 1.2 model as the lineage fragment reads it: its name, its
declared property names (`properties` keys, unique by construction in a
JavaScript object), and its `subTypes` list. -/
structure Model12 where
  name : String
  props : List String
  subTypes : List String
deriving DecidableEq, Repr

/-- A 1.2 api declaration restricted to its `models` object (insertion
order preserved, as JavaScript object iteration is). -/
abbrev Doc12 := List Model12

/-- The canonical pointer of a 1.2 model (`pathToPointer(["models", n])`). -/
def ptr12 (n : String) : String := "#/models/" ++ n

/-- The display name `a(e)` used by the 1.2 dialect: the last pointer
segment. -/
def lastSeg (p : String) : String :=
  String.mk (((splitOnChar '/' p.toList).getLast?).getD [])

/-- The `parents` list the sub-type walk of `E` stores on the definition
node of pointer `q`: each declared model listing `q`'s model among its
`subTypes` pushes its own pointer, in document order (undeclared sub-types
fail the `f` resolution check and push nothing). -/
def parentsOf (d : Doc12) (q : String) : List String :=
  (d.filter fun s =>
    (s.subTypes.any fun r => ptr12 r = q) ∧ d.any fun mo => ptr12 mo.name = q).map
    fun s => ptr12 s.name

/-- The `_.each` over `t.parents` inside the lineage walker: push each
parent, and pass it to `next` (the recursion into the parent) unless it is
the start node. -/
def lineageWalkSteps (next : String → List String → List String) (start : String) :
    List String → List String → List String
  | [], acc => acc
  | e :: rest, acc =>
    let acc1 := acc ++ [e]
    let acc2 := if start = e then acc1 else next e acc1
    lineageWalkSteps next start rest acc2

/-- The lineage walker `c(n, i, o)` of `specs.js`: push each parent of the
current node, and recurse into it unless it is the start node (the
truncation that makes a self-reaching cycle terminate).  `fuel` bounds the
recursion depth of the embedding; the source recurses unboundedly. -/
def lineageWalk (par : String → List String) : Nat → String → String →
    List String → List String
  | 0, _, _, acc => acc
  | fuel + 1, start, cur, acc =>
    lineageWalkSteps (fun e acc1 => lineageWalk par fuel start e acc1) start (par cur) acc

/-- Lineage computation for node `u`: run the walker from `u`, reverse to
root-first order, and flag the node cyclical when the walk came back to
`u` (`h.length > 1 && h[0] === u` on the reversed list). -/
def computeLineage (par : String → List String) (fuel : Nat) (u : String) :
    List String × Bool :=
  let h := (lineageWalk par fuel u u []).reverse
  (h, decide (h.length > 1) && (h.head?).any fun x => x = u)

/-- The lineage-related fields of one tracked definition node. -/
structure DefNode where
  lineage : Option (List String)
  cyclical : Bool
deriving DecidableEq, Repr

/-- The definition registry restricted to those fields: pointer-keyed. -/
abbrev LinRegistry := List (String × DefNode)

/-- Registry lookup (`e.definitions[u]`). -/
def regLookup (st : LinRegistry) (k : String) : Option DefNode :=
  (st.find? fun p => p.1 = k).map fun p => p.2

/-- In-place update of one tracked node. -/
def regUpdate (st : LinRegistry) (k : String) (v : DefNode) : LinRegistry :=
  st.map fun p => if p.1 = k then (k, v) else p

/-- Tracking performed while walking the models object: every declared
model gets a node with undefined lineage and a false cyclical flag. -/
def initRegistry (d : Doc12) : LinRegistry :=
  d.map fun m => (ptr12 m.name, ⟨none, false⟩)

/-- The `CYCLICAL_MODEL_INHERITANCE` finding `E` emits for node `u` with
(root-first) lineage `h`: the message names the full cycle through the
1.2 display names, and the path points at the node's `subTypes`. -/
def cyclicalFinding (u : String) (h : List String) : Finding × List String :=
  (⟨"CYCLICAL_MODEL_INHERITANCE",
    "Model has a circular inheritance: " ++
      String.intercalate " -> " (h.map lastSeg) ++ " -> " ++ lastSeg u⟩,
   ["models", lastSeg u, "subTypes"])

/-- One iteration of the model loop of `E`, restricted to its
lineage/cyclical bookkeeping: reuse the memoized lineage when defined,
else run the walker exactly once and store the result, then report a
cyclical node.  (The redeclared-property, required-property and
multiple-inheritance checks of the same loop are independent of this
fragment and not modelled here.) -/
def checkModelsStep (par : String → List String) (fuel : Nat)
    (acc : LinRegistry × List (Finding × List String)) (u : String) :
    LinRegistry × List (Finding × List String) :=
  match regLookup acc.1 u with
  | none => acc
  | some node =>
    let hcyc : List String × Bool × LinRegistry :=
      match node.lineage with
      | some h => (h, node.cyclical, acc.1)
      | none =>
        let (h, cyc) := computeLineage par fuel u
        (h, cyc, regUpdate acc.1 u ⟨some h, cyc⟩)
    (hcyc.2.2, if hcyc.2.1 then acc.2 ++ [cyclicalFinding u hcyc.1] else acc.2)

/-- The model loop of `E` over a document's registry (document order). -/
def checkModels (d : Doc12) (fuel : Nat) (st : LinRegistry) :
    LinRegistry × List (Finding × List String) :=
  d.foldl (fun acc m => checkModelsStep (parentsOf d) fuel acc (ptr12 m.name)) (st, [])

/-! ## Model composition (`p` in `specs.js`)

For the 1.2 dialect, the composed schema of a model with non-empty
lineage keeps the node's own properties and pushes the recursive
composition of every lineage entry into an `allOf` array.  Only the
property-name structure is modelled: the source additionally clones the
node, deletes `subTypes` and string `id` fields, parses string-encoded
`maximum`/`minimum` values inside properties, rewrites property-level
references, and stamps a synthesized title — none of which adds or
removes a property name. -/

/-- A composed schema restricted to its property names and `allOf`. -/
inductive CSchema where
  | mk (props : List String) (allOf : List CSchema)

mutual

/-- The property names of a composed schema: its own `properties` keys and,
recursively, those of every `allOf` member. -/
def csProps : CSchema → List String
  | .mk ps l => ps ++ csPropsList l

/-- Property names of a list of composed schemas, in order. -/
def csPropsList : List CSchema → List String
  | [] => []
  | c :: cs => csProps c ++ csPropsList cs

end

/-- `C(e, n)` of `specs.js` on the 1.2 dialect, over the memoized registry
state: `own` gives a node's own property names and `lin` its stored
root-first lineage; each lineage entry is recursively composed into
`allOf`.  The source recursion is unbounded; `fuel` bounds the embedding
(on a valid, acyclic document the lineage length bounds the depth). -/
def composeF (own lin : String → List String) : Nat → String → CSchema
  | 0, m => .mk (own m) []
  | fuel + 1, m => .mk (own m) ((lin m).map (composeF own lin fuel))

/-! ## `composeSchema` outcome logic and `resolve`

Structural validation delegates to the external z-schema primitive; it is
abstracted as the findings report it produces.  `l(...)` decides
invalidity; `m(...)` builds the aggregate invalid-document error carrying
the report. -/

/-- What a `composeSchema` call can deliver through its callback. -/
inductive ComposeOutcome where
  | aggregateErr (errors warnings : List (Finding × List String))
  | absent
  | composed (s : CSchema)

/-- The decision logic of the `s` callback inside
`Specification.prototype.composeSchema`: a failed structural validation is
escalated through `m` first; otherwise semantic findings are computed, and
only when the model reference exists are they escalated — a missing
reference yields the bare callback (`o()`), an absent result, regardless
of semantic findings. -/
def composeSchemaResult (structural semantic : Report) (hasRef : Bool)
    (s : CSchema) : ComposeOutcome :=
  if reportNonEmpty structural then .aggregateErr structural.errors structural.warnings
  else if hasRef then
    if reportNonEmpty semantic then .aggregateErr semantic.errors semantic.warnings
    else .composed s
  else .absent

/-- One argument of a `resolve(...)` call, as the precondition checks
distinguish them: a plain-object document, a string pointer, or a callback
function. -/
inductive ResolveArg (δ : Type) where
  | docA (d : δ)
  | ptrA (p : String)
  | cbA

/-- What a `resolve(...)` call can produce: a synchronously thrown
precondition error, the aggregate invalid-document error (`m`), the full
resolved tree, or the pointer-lookup branch applied to the value found in
the `ptr` parameter slot. -/
inductive ResolveOutcome (δ : Type) where
  | precondErr (msg : String)
  | aggregateErr (errors warnings : List (Finding × List String))
  | fullTree (t : δ)
  | nodeAt (ptrVal : ResolveArg δ) (t : δ)

/-- A registry entry of the specification cache `c` in `specs.js`, keyed
by the MD5 of the serialized original document — modelled as the document
value itself, i.e. assuming the content hash is collision-free. -/
structure RegEntry (δ : Type) where
  resolved : Option δ

/-- The specification registry: content-addressed entries. -/
abbrev SpecRegistry (δ : Type) := List (δ × RegEntry δ)

/-- Registry lookup by content (`g`'s `c[n]` on the primary key; the
secondary resolved-content key is not needed for the claims here). -/
def specLookup {δ : Type} [DecidableEq δ] (st : SpecRegistry δ) (d : δ) :
    Option (RegEntry δ) :=
  (st.find? fun p => p.1 = d).map fun p => p.2

/-- `Specification.prototype.resolve`, embedded over an abstract document
type: `validateRes` stands for the structural+semantic findings of the
non-memoized path (`P`), and `res` for the reference-resolution pass `O`
performs, whose invocation count the result also reports (`0` means the
fetch capability was not re-entered).  The argument-handling prelude is
embedded exactly: in the source, `callback = arguments[1]`
unconditionally, so the value in the second argument slot must be a
function and the `ptr` parameter `n` is whatever sits in that same slot. -/
def resolveCall {δ : Type} [DecidableEq δ] (validateRes : δ → Report) (res : δ → δ)
    (st : SpecRegistry δ) (args : List (ResolveArg δ)) :
    ResolveOutcome δ × SpecRegistry δ × Nat :=
  match args.get? 0 with
  | none => (.precondErr "document is required", st, 0)
  | some (.ptrA _) | some .cbA => (.precondErr "document must be an object", st, 0)
  | some (.docA d) =>
    match args.get? 1 with
    | none => (.precondErr "callback is required", st, 0)
    | some (.ptrA _) | some (.docA _) =>
      (.precondErr "callback must be a function", st, 0)
    | some .cbA =>
      match specLookup st d with
      | some { resolved := some t } => (.fullTree t, st, 0)
      | _ =>
        let rep := validateRes d
        if reportNonEmpty rep then (.aggregateErr rep.errors rep.warnings, st, 1)
        else
          let t := res d
          let st := (d, ({ resolved := some t } : RegEntry δ)) ::
            st.filter fun p => p.1 ≠ d
          match args.get? 1 with
          | some .cbA => (.nodeAt .cbA t, st, 1)
          | some p => (.nodeAt p t, st, 1)
          | none => (.fullTree t, st, 1)

/-! ## The asynchronous gather (`async.map` fan-out in `I`)

`I` validates each sub-document as an independent asynchronous unit and
writes result `r` into `apiDeclarations[r]` by original index.  The
`async.map` contract (an environment collaborator) is modelled with an
explicit completion order: results are keyed by input index whatever that
order is, and the first error to complete aborts the gather. -/

/-- The first error among `rs`, scanned in completion order. -/
def firstErrorBy {ε β : Type} (order : List Nat) (rs : List (Except ε β)) :
    Option ε :=
  order.findSome? fun i =>
    match rs[i]? with
    | some (Except.error e) => some e
    | _ => none

/-- The successful payload of a unit result, if any. -/
def exceptToOption {ε β : Type} : Except ε β → Option β
  | .ok b => some b
  | .error _ => none

/-- `async.map` over already-determined unit results `rs`, with completion
order `order` (a permutation of the indices): an error aborts with the
first-completing failure and no partial results; otherwise the result list
is keyed by original input index, independent of `order`. -/
def asyncMapModel {ε β : Type} (order : List Nat) (rs : List (Except ε β)) :
    Except ε (List β) :=
  match firstErrorBy order rs with
  | some e => .error e
  | none => .ok (rs.filterMap exceptToOption)

/-- The sub-document fan-out of `I`: validate every sub-document
concurrently and assemble the per-sub-document reports by submission
index (`s.apiDeclarations[r] = e`). -/
def validateSubDocs {δ ε : Type} (validateDecl : δ → Except ε Report)
    (order : List Nat) (subs : List δ) : Except ε (List Report) :=
  asyncMapModel order (subs.map validateDecl)

/-! ## Auxiliary notions used only by the theorem statements -/

/-- The first defined entry of a list of optional findings: the outcome of
running a sequence of throwing checks in order, stopping at the first
throw. -/
def firstSome {α : Type} (l : List (Option α)) : Option α :=
  (l.filterMap id).head?

/-- Modelled from the spec: "integer/number accept any value that *fully
parses* as such" — a string fully parses as an integer when the entire
string is an optionally signed run of decimal digits.  This is the spec's
reading, to be compared against the source's `parseInt`-based check. -/
def specFullyParsesInteger (s : String) : Bool :=
  let (_, cs) := parseSign s.toList
  !cs.isEmpty && cs.all Char.isDigit

/-- The canonical two-model cyclical document: model `A` lists `B` among
its `subTypes` and vice versa, so each is the other's parent and the
ancestor chain of `A` is `A → B → A`. -/
def doc2 : Doc12 := [⟨"A", [], ["B"]⟩, ⟨"B", [], ["A"]⟩]

/-- A document with the same self-reaching cycle `A → B → A` plus a side
cycle that does not pass through `A`: model `C` lists both `B` and itself
among its `subTypes`, so `B`'s parents are `A` and `C` and `C` is its own
parent.  Walking `A`'s ancestors enters the `C` self-loop, which never
returns to the start node, so the source walker recurses unboundedly. -/
def docSide : Doc12 := [⟨"A", [], ["B"]⟩, ⟨"B", [], ["A"]⟩, ⟨"C", [], ["B", "C"]⟩]

/-- A concrete three-model inheritance chain (`A` extends `B` extends `C`):
own property names, for the composition examples. -/
def ownW : String → List String := fun n =>
  if n = "A" then ["pa"] else if n = "B" then ["pb"]
  else if n = "C" then ["pc"] else []

/-- The memoized root-first lineages of that chain. -/
def linW : String → List String := fun n =>
  if n = "A" then ["C", "B"] else if n = "B" then ["C"] else []

/-! # Theorems -/

/-- `firstSome` distributes over cons as an `orElse`. -/
theorem firstSome_cons {α : Type} (x : Option α) (l : List (Option α)) :
    firstSome (x :: l) = x.orElse fun _ => firstSome l := by
  cases x <;> rfl

/-- `firstSome` of no checks is no finding. -/
theorem firstSome_nil {α : Type} : firstSome ([] : List (Option α)) = none := rfl

/-- A trailing empty alternative is dropped. -/
theorem orElse_none {α : Type} (x : Option α) : (x.orElse fun _ => none) = x := by
  cases x <;> rfl

/-- C1 (amended): `validateSchemaConstraints` raises at most one finding per
invocation, applying its checks in the fixed order type/format, enum,
maximum, maxItems, maxLength, maxProperties, minimum, minItems, minLength,
minProperties, multipleOf, pattern, uniqueItems and stopping at the first
failure (first conjunct: the check body equals the first failure of that
ordered list); and an absent value yields no findings provided the node
declares no default value and is not an array-typed node missing its
`items` (second conjunct). -/
theorem validateSchemaConstraints_order_and_absent :
    (∀ (rmatch : String → String → Bool) (n : CNodeCore) (a : JVal),
      checkValueCore rmatch n a = firstSome
        [typeFormatCheck n a,
         validateEnum a n.enum,
         validateMaximum a n.maximum n.type n.exclusiveMaximum,
         validateMaxItems a n.maxItems,
         validateMaxLength a n.maxLength,
         validateMaxProperties a n.maxProperties,
         validateMinimum a n.minimum n.type n.exclusiveMinimum,
         validateMinItems a n.minItems,
         validateMinLength a n.minLength,
         validateMinProperties a n.minProperties,
         validateMultipleOf a n.multipleOf,
         validatePattern rmatch a n.pattern,
         validateUniqueItems a n.uniqueItems]) ∧
    (∀ (ver : String) (rmatch : String → String → Bool) (node : CNode)
        (path : List String),
      ((unwrapSchema node path).1.type = some "array" →
        ((unwrapSchema node path).1.items).isSome = true) →
      (unwrapSchema node path).1.default12 = none →
      (unwrapSchema node path).1.default20 = none →
      validateSchemaConstraints ver rmatch node path none = none) := by
  constructor
  · intro rmatch n a
    simp only [checkValueCore, firstSome_cons, firstSome_nil, orElse_none]
  · intro ver rmatch node path h1 h2 h3
    rcases hu : unwrapSchema node path with ⟨n, p⟩
    rw [hu] at h1 h2 h3
    simp only at h1 h2 h3
    simp only [validateSchemaConstraints, hu]
    have harr : validateArrayType n.type n.items.isSome = none := by
      unfold validateArrayType
      split_ifs with h
      · exact absurd (h1 h.1) h.2
      · rfl
    rw [harr]
    by_cases hv : ver = "1.2" <;> simp [hv, h2, h3]

/-- Witness for C1: an integer-typed node with no default and an absent
value yields no findings. -/
theorem validateSchemaConstraints_order_and_absent_witness :
    validateSchemaConstraints "2.0" (fun _ _ => true)
      (.mk { type := some "integer" } none) ["x"] none = none :=
  validateSchemaConstraints_order_and_absent.2 "2.0" (fun _ _ => true)
    (.mk { type := some "integer" } none) ["x"] (by decide) rfl rfl

/-- C1 counterexample: two absent-value invocations that do raise a
finding — an array-typed node missing `items` raises
`OBJECT_MISSING_REQUIRED_PROPERTY` before the absence check, and a node
with a declared default validates the default in the value's place. -/
theorem validateSchemaConstraints_absent_counterexample :
    validateSchemaConstraints "2.0" (fun _ _ => true)
        (.mk { type := some "array" } none) [] none
      = some (⟨"OBJECT_MISSING_REQUIRED_PROPERTY", "Missing required property: items"⟩,
          []) ∧
    validateSchemaConstraints "2.0" (fun _ _ => true)
        (.mk { type := some "integer", default20 := some (.vStr "abc") } none) [] none
      = some (⟨"INVALID_TYPE", "Not a valid integer: abc"⟩, ["default"]) := ⟨rfl, rfl⟩

/-- C3 counterexample: the claim as stated fails on the code twice.  On
the canonical cyclical document the semantic pass reports two
`CYCLICAL_MODEL_INHERITANCE` findings — one per cycle member — not exactly
one (first conjunct).  And on a document whose self-reaching cycle
`A → B → A` coexists with a side cycle not passing through `A`
(second conjunct exhibits the `A → B → A` parent links in `docSide`), the
ancestor walk never stabilizes: its result still changes between recursion
depths 30 and 31 (third conjunct), so lineage computation does not
terminate on every document containing a self-reaching cycle. -/
theorem cyclical_inheritance_counterexample :
    (((checkModels doc2 2 (initRegistry doc2)).2.filter
        (fun fp => fp.1.code == "CYCLICAL_MODEL_INHERITANCE")).length = 2) ∧
    (parentsOf docSide (ptr12 "A") = [ptr12 "B"] ∧
      ptr12 "A" ∈ parentsOf docSide (ptr12 "B")) ∧
    lineageWalk (parentsOf docSide) 30 (ptr12 "A") (ptr12 "A") []
      ≠ lineageWalk (parentsOf docSide) 31 (ptr12 "A") (ptr12 "A") [] :=
  ⟨by decide, ⟨by decide, by decide⟩, by decide⟩

/-- C3 (amended): on the canonical self-reaching cycle (`A → B → A`) the
ancestor walk terminates with the same result at every sufficient
recursion depth (first conjunct: fuel-independence of the unbounded source
recursion), the node's lineage is memoized as the truncated `[A, B]` with
the cyclical flag set (second conjunct), semantic validation reports
exactly one `CYCLICAL_MODEL_INHERITANCE` error per model in the cycle,
each naming that model's full cycle (third conjunct: the report's cyclical
findings are exactly the one for `A` and the one for `B`), and a second
semantic pass reuses the memoized lineage: the registry is unchanged and
the report reproduced without recomputation (fourth conjunct).  The
termination is not universal: with a side cycle that does not pass through
the starting model, the walk keeps changing as the recursion deepens
(fifth conjunct). -/
theorem cyclical_inheritance_canonical_cycle :
    (∀ f : Nat,
      lineageWalk (parentsOf doc2) (f + 2) (ptr12 "A") (ptr12 "A") []
        = [ptr12 "B", ptr12 "A"]) ∧
    (regLookup (checkModels doc2 2 (initRegistry doc2)).1 (ptr12 "A")
      = some ⟨some [ptr12 "A", ptr12 "B"], true⟩) ∧
    ((checkModels doc2 2 (initRegistry doc2)).2.filter
        (fun fp => fp.1.code == "CYCLICAL_MODEL_INHERITANCE")
      = [(⟨"CYCLICAL_MODEL_INHERITANCE",
            "Model has a circular inheritance: A -> B -> A"⟩,
          ["models", "A", "subTypes"]),
         (⟨"CYCLICAL_MODEL_INHERITANCE",
            "Model has a circular inheritance: B -> A -> B"⟩,
          ["models", "B", "subTypes"])]) ∧
    (checkModels doc2 2 (checkModels doc2 2 (initRegistry doc2)).1
      = ((checkModels doc2 2 (initRegistry doc2)).1,
         (checkModels doc2 2 (initRegistry doc2)).2)) ∧
    (lineageWalk (parentsOf docSide) 30 (ptr12 "A") (ptr12 "A") []
      ≠ lineageWalk (parentsOf docSide) 31 (ptr12 "A") (ptr12 "A") []) :=
  ⟨fun _ => rfl, rfl, by decide, rfl, by decide⟩

/-- C4: embedding of the `resolve` argument prelude evaluated at the
documented three-argument call `resolve(document, pointer, callback)`: the
source takes `callback = arguments[1]` unconditionally, so the pointer in
that slot fails the `isFunction` precondition and the call throws instead
of returning the node at the pointer. -/
theorem resolve_pointer_call_throws :
    (resolveCall (fun _ => (⟨[], []⟩ : Report)) (fun d => d + 1)
        ([] : SpecRegistry Nat) [.docA 0, .ptrA "#/models/Pet", .cbA]).1
      = .precondErr "callback must be a function" := rfl

/-- C8: two `resolve(document, callback)` calls on identical content over a
fresh registry.  The first call resolves, stores the tree in the
content-keyed entry, and (because of the `callback = arguments[1]` slip)
delivers its result through the pointer-lookup branch applied to the
callback value; the second call is served from the registry: it returns
the stored resolved tree, performs no resolution pass (count 0, so the
fetch capability is not re-entered), and leaves the registry unchanged. -/
theorem resolve_twice_memoized_eval :
    resolveCall (fun _ => (⟨[], []⟩ : Report)) (fun d => d + 100)
        ([] : SpecRegistry Nat) [.docA 1, .cbA]
      = (.nodeAt .cbA 101, [(1, ⟨some 101⟩)], 1) ∧
    resolveCall (fun _ => (⟨[], []⟩ : Report)) (fun d => d + 100)
        ([(1, ⟨some 101⟩)] : SpecRegistry Nat) [.docA 1, .cbA]
      = (.fullTree 101, [(1, ⟨some 101⟩)], 0) := ⟨rfl, rfl⟩

/-- C6 (amended): the gate raises only for POST/PUT, strips the `;` suffix,
defaults a missing header, and throws exactly when the declared union is
non-empty, the method is mutating, and the stripped value is not in the
union (first conjunct); non-mutating methods always pass (second
conjunct); a thrown message lists the union verbatim (third conjunct). -/
theorem contentType_gate_characterization :
    (∀ (gl co : List String) (req : CTReq),
      ((validateContentType gl co req).isSome = true ↔
        (lodashUnion co gl ≠ [] ∧ req.method ∈ ["POST", "PUT"] ∧
          stripSuffix (req.contentType.getD "application/octet-stream") ∉
            lodashUnion co gl))) ∧
    (∀ (gl co : List String) (req : CTReq),
      req.method ∉ (["POST", "PUT"] : List String) →
      validateContentType gl co req = none) ∧
    (∀ (gl co : List String) (req : CTReq) (msg : String),
      validateContentType gl co req = some msg →
      msg = "Invalid content type (" ++
          stripSuffix (req.contentType.getD "application/octet-stream") ++
          ").  These are valid: " ++ joinComma (lodashUnion co gl)) := by
  refine ⟨fun gl co req => ?_, fun gl co req h => ?_, fun gl co req msg h => ?_⟩
  · simp only [validateContentType]
    split_ifs with h
    · simp only [Option.isSome_some, true_iff]
      exact ⟨List.ne_nil_of_length_pos h.1, h.2.1, h.2.2⟩
    · simp only [Option.isSome_none, Bool.false_eq_true, false_iff]
      intro hc
      exact h ⟨List.length_pos_of_ne_nil hc.1, hc.2.1, hc.2.2⟩
  · simp only [validateContentType]
    split_ifs with hc
    · exact absurd hc.2.1 h
    · rfl
  · simp only [validateContentType] at h
    split_ifs at h with hc
    exact (Option.some_inj.mp h).symm

/-- Witness for C6: a GET request passes regardless of header and declared
consumes. -/
theorem contentType_gate_characterization_witness :
    validateContentType [] ["application/json"] ⟨some "text/plain", "GET"⟩ = none :=
  contentType_gate_characterization.2.1 [] ["application/json"]
    ⟨some "text/plain", "GET"⟩ (by decide)

/-- C6 counterexample: a POST whose stripped header value is not in the
(empty) declared union yet passes, against the claim's "throws exactly
when the stripped value is not in that union". -/
theorem contentType_gate_counterexample :
    validateContentType [] [] ⟨some "application/json", "POST"⟩ = none ∧
      stripSuffix "application/json" ∉ lodashUnion [] [] ∧
      ("POST" : String) ∈ (["POST", "PUT"] : List String) := by
  refine ⟨rfl, by decide, by decide⟩

/-- C10: with an empty union of declared consumes the gate passes every
request — any method, any or no header. -/
theorem contentType_gate_empty_union (gl co : List String) (req : CTReq)
    (h : lodashUnion co gl = []) : validateContentType gl co req = none := by
  simp [validateContentType, h]

/-- Witness for C10: a POST with a header and no declared consumes. -/
theorem contentType_gate_empty_union_witness :
    validateContentType [] [] ⟨some "application/octet-stream", "POST"⟩ = none :=
  contentType_gate_empty_union [] [] ⟨some "application/octet-stream", "POST"⟩ rfl

/-- C7 counterexample: a document that fails (semantic) validation — the
cyclical document's model checks produce a non-empty error list — together
with a missing model reference yields the absent outcome, not the
aggregate error the claim requires for every non-validating document; and
the escalation of findings into the aggregate invalid-document error is
not confined to `composeSchema`/`validateModel` — `resolve` performs the
same escalation (third conjunct). -/
theorem composeSchema_counterexample :
    composeSchemaResult ⟨[], []⟩ ⟨(checkModels doc2 2 (initRegistry doc2)).2, []⟩
        false (.mk [] [])
      = .absent ∧
    reportNonEmpty ⟨(checkModels doc2 2 (initRegistry doc2)).2, []⟩ = true ∧
    (resolveCall (fun _ => (⟨[(⟨"X", "y"⟩, [])], []⟩ : Report)) (fun d => d)
        ([] : SpecRegistry Nat) [.docA 0, .cbA]).1
      = .aggregateErr [(⟨"X", "y"⟩, [])] [] :=
  ⟨rfl, by decide, rfl⟩

/-- C7 (amended): `composeSchema` escalates a failed structural validation
into the aggregate error carrying that report (first conjunct); with a
structurally valid document it escalates semantic findings only when the
model reference exists (second conjunct); a missing reference yields the
absent outcome — no composed schema, no error — even when semantic
findings exist (third conjunct); a fully valid document with an existing
reference composes (fourth conjunct); and `resolve` performs the same
escalation on a non-memoized document whose validation report is non-empty
(fifth conjunct). -/
theorem composeSchema_escalation :
    (∀ (structural semantic : Report) (hasRef : Bool) (s : CSchema),
      reportNonEmpty structural = true →
      composeSchemaResult structural semantic hasRef s
        = .aggregateErr structural.errors structural.warnings) ∧
    (∀ (structural semantic : Report) (s : CSchema),
      reportNonEmpty structural = false → reportNonEmpty semantic = true →
      composeSchemaResult structural semantic true s
        = .aggregateErr semantic.errors semantic.warnings) ∧
    (∀ (structural semantic : Report) (s : CSchema),
      reportNonEmpty structural = false →
      composeSchemaResult structural semantic false s = .absent) ∧
    (∀ (structural semantic : Report) (s : CSchema),
      reportNonEmpty structural = false → reportNonEmpty semantic = false →
      composeSchemaResult structural semantic true s = .composed s) ∧
    (∀ (δ : Type) (_inst : DecidableEq δ) (validateRes : δ → Report) (res : δ → δ)
        (st : SpecRegistry δ) (d : δ),
      reportNonEmpty (validateRes d) = true →
      specLookup st d = none →
      (resolveCall validateRes res st [.docA d, .cbA]).1
        = .aggregateErr (validateRes d).errors (validateRes d).warnings) := by
  refine ⟨?_, ?_, ?_, ?_, ?_⟩
  · intro structural semantic hasRef s h
    simp [composeSchemaResult, h]
  · intro structural semantic s h1 h2
    simp [composeSchemaResult, h1, h2]
  · intro structural semantic s h
    simp [composeSchemaResult, h]
  · intro structural semantic s h1 h2
    simp [composeSchemaResult, h1, h2]
  · intro δ _inst validateRes res st d h hl
    simp only [resolveCall, List.get?]
    rw [hl]
    simp [h]

/-- Witness for C7: a structural failure escalates at a concrete report,
and `resolve` escalates the same concrete report on a fresh registry. -/
theorem composeSchema_escalation_witness :
    (composeSchemaResult ⟨[(⟨"E", "m"⟩, ["p"])], []⟩ ⟨[], []⟩ true (.mk [] [])
      = .aggregateErr [(⟨"E", "m"⟩, ["p"])] []) ∧
    ((resolveCall (fun _ => (⟨[(⟨"E", "m"⟩, ["p"])], []⟩ : Report)) (fun d => d)
        ([] : SpecRegistry Nat) [.docA 0, .cbA]).1
      = .aggregateErr [(⟨"E", "m"⟩, ["p"])] []) :=
  ⟨composeSchema_escalation.1 ⟨[(⟨"E", "m"⟩, ["p"])], []⟩ ⟨[], []⟩ true (.mk [] [])
     (by decide),
   composeSchema_escalation.2.2.2.2 Nat (inferInstance : DecidableEq Nat)
     (fun _ => (⟨[(⟨"E", "m"⟩, ["p"])], []⟩ : Report)) (fun d => d) [] 0
     (by decide) rfl⟩

/-- A `takeWhile` is non-empty exactly when the list starts with a
satisfying element. -/
theorem takeWhile_isEmpty_eq_false (p : Char → Bool) (cs : List Char) :
    (cs.takeWhile p).isEmpty = false ↔ ∃ c, cs.head? = some c ∧ p c = true := by
  cases cs with
  | nil => simp [List.takeWhile]
  | cons c cs =>
    simp only [List.takeWhile, List.head?_cons]
    cases h : p c <;> simp [h]

/-- A list whose head fails `p` is untouched by `dropWhile p`. -/
theorem dropWhile_of_head_false {p : Char → Bool} {cs : List Char}
    (h : ∀ c, cs.head? = some c → p c = false) : cs.dropWhile p = cs := by
  cases cs with
  | nil => rfl
  | cons c cs =>
    have := h c rfl
    simp [List.dropWhile, this]

/-- The element loop reports the first failing index: if every element of
`pre` tests true and `el` tests false as a scalar, the loop starting at
index `j` throws `INVALID_TYPE` at index `j + pre.length`. -/
theorem vtfList_first_failure (ty fmt : Option String) (el : JVal)
    (hel : vtfTest el ty fmt = .ok false) :
    ∀ (pre : List JVal) (post : List JVal) (j : Nat),
      (∀ x ∈ pre, vtfTest x ty fmt = .ok true) →
      vtfList (pre ++ el :: post) ty fmt j = .error ⟨"INVALID_TYPE",
        "Value at index " ++ toString (j + pre.length) ++ " is not a valid " ++
          tyDisplay ty ++ ": " ++ jsToString el⟩ := by
  intro pre
  induction pre with
  | nil =>
    intro post j _
    simp [vtfList, hel]
  | cons x pre ih =>
    intro post j hpre
    have hx : vtfTest x ty fmt = .ok true := hpre x (by simp)
    have hrec : vtfList (pre ++ el :: post) ty fmt (j + 1) = .error ⟨"INVALID_TYPE",
        "Value at index " ++ toString (j + 1 + pre.length) ++ " is not a valid " ++
          tyDisplay ty ++ ": " ++ jsToString el⟩ :=
      ih post (j + 1) fun y hy => hpre y (by simp [hy])
    have hj : j + 1 + pre.length = j + (x :: pre).length := by
      simp only [List.length_cons]
      omega
    rw [hj] at hrec
    have hstep : vtfList ((x :: pre) ++ el :: post) ty fmt j
        = vtfList (pre ++ el :: post) ty fmt (j + 1) := by
      simp [vtfList, hx]
    rw [hstep, hrec]

/-- With every element passing, the loop passes. -/
theorem vtfList_all_ok (ty fmt : Option String) :
    ∀ (l : List JVal) (j : Nat), (∀ x ∈ l, vtfTest x ty fmt = .ok true) →
      vtfList l ty fmt j = .ok true := by
  intro l
  induction l with
  | nil => intro j _; rfl
  | cons x l ih =>
    intro j h
    have hx : vtfTest x ty fmt = .ok true := h x (by simp)
    simp only [vtfList, hx, if_true]
    exact ih (j + 1) fun y hy => h y (by simp [hy])

/-- The `number` coercion accepts a string exactly when, after whitespace
and an optional sign, it begins with a decimal digit, or with a decimal
point followed by a digit. -/
theorem scalarNumber_accepts_iff (s : String) :
    scalarTypeOk (.vStr s) (some "number") none = true ↔
      ∃ c, ((parseSign (s.toList.dropWhile isWs)).2).head? = some c ∧
        (c.isDigit = true ∨ (c = '.' ∧
          ∃ d, ((parseSign (s.toList.dropWhile isWs)).2).tail.head? = some d ∧
            d.isDigit = true)) := by
  simp only [scalarTypeOk, parseFloatJ, jsToString, parseFloatStr]
  rcases hsg : parseSign (s.toList.dropWhile isWs) with ⟨sg, cs⟩
  simp only
  rcases cs with _ | ⟨c, cs2⟩
  · simp
  · by_cases hc : c.isDigit = true
    · constructor
      · intro _
        exact ⟨c, rfl, Or.inl hc⟩
      · intro _
        simp [List.takeWhile, hc]
    · have hip : ((c :: cs2).takeWhile Char.isDigit) = [] := by
        simp [List.takeWhile, hc]
      rw [hip]
      simp only [List.isEmpty_nil, List.length_nil, List.drop_zero, true_and,
        List.head?_cons, List.tail_cons, Option.some_inj]
      by_cases hdot : c = '.'
      · subst hdot
        simp only [eq_self_iff_true, if_true]
        have hiff := takeWhile_isEmpty_eq_false Char.isDigit cs2
        cases hfp : (cs2.takeWhile Char.isDigit).isEmpty
        · obtain ⟨d, hd1, hd2⟩ := hiff.mp hfp
          constructor
          · intro _
            exact ⟨'.', rfl, Or.inr ⟨rfl, d, hd1, hd2⟩⟩
          · intro _
            simp
        · constructor
          · intro h
            simp at h
          · rintro ⟨c0, hc0, hd⟩
            subst hc0
            rcases hd with h | ⟨_, d, hd1, hd2⟩
            · exact absurd h hc
            · have hne := hiff.mpr ⟨d, hd1, hd2⟩
              rw [hfp] at hne
              simp at hne
      · rw [if_neg hdot]
        constructor
        · intro h
          simp at h
        · rintro ⟨c0, hc0, hd⟩
          subst hc0
          rcases hd with h | ⟨h, _⟩
          · exact absurd h hc
          · exact absurd h hdot

/-- C5 counterexample: the claim as stated fails on the code twice.  The
value `"3.5"` is accepted as type `integer` (`parseInt("3.5", 10)` is `3`,
not `NaN`) although it does not fully parse as an integer — the coercion
accepts numeric prefixes, against the claim's "if and only if v fully
parses" (first conjunct).  And an array element is not validated against
the items constraint set: with items `{type: integer, enum: ["1", "2"]}`,
the element `"5"` lies outside the items enum — checking it against that
enum would raise `ENUM_MISMATCH` (third conjunct) — yet the whole
invocation passes, because only the items type and format reach the
element check (second conjunct). -/
theorem typeFormat_integer_counterexample :
    (scalarTypeOk (.vStr "3.5") (some "integer") none = true ∧
      specFullyParsesInteger "3.5" = false) ∧
    validateSchemaConstraints "2.0" (fun _ _ => true)
        (.mk { type := some "array",
               items := some { type := some "integer",
                               enum := some [.vStr "1", .vStr "2"] } } none)
        [] (some (.vArr [.vStr "5"]))
      = none ∧
    validateEnum (.vStr "5") (some [.vStr "1", .vStr "2"])
      = some ⟨"ENUM_MISMATCH", "Not an allowable value (1, 2): 5"⟩ :=
  ⟨by decide, rfl, rfl⟩


/-- A decimal digit is not parse whitespace. -/
theorem digit_not_ws {c : Char} (h : c.isDigit = true) : isWs c = false := by
  by_contra hw
  have hw' : isWs c = true := by revert hw; cases isWs c <;> simp
  simp only [isWs, decide_eq_true_eq] at hw'
  rcases hw' with h1 | h1 | h1 | h1 <;> subst h1 <;> exact absurd h (by decide)

/-- The `integer` coercion accepts a string exactly when, after whitespace
and an optional sign, it begins with a decimal digit. -/
theorem scalarInt_accepts_iff (s : String) :
    scalarTypeOk (.vStr s) (some "integer") none = true ↔
      ∃ c, ((parseSign (s.toList.dropWhile isWs)).2).head? = some c ∧
        c.isDigit = true := by
  simp only [scalarTypeOk, parseIntJ, jsToString, parseIntStr]
  rcases hsg : parseSign (s.toList.dropWhile isWs) with ⟨sg, cs⟩
  simp only
  rw [← takeWhile_isEmpty_eq_false Char.isDigit cs]
  cases h : (cs.takeWhile Char.isDigit).isEmpty <;> simp [h]

/-- C5 (amended): the type check accepts a string as `integer` exactly when
its text (after whitespace and an optional sign) begins with a decimal
digit — every fully parsing integer is accepted, and so are prefix parses
(first two conjuncts); it accepts a string as `number` exactly when that
text begins with a digit, or with a decimal point followed by a digit
(third conjunct, so number prefix parses such as `"1.5rest"` are accepted
too); `boolean` accepts exactly literal booleans and the strings
`"true"`/`"false"` (fourth conjunct); an array value checks every element
against the items' declared type and format — and only those — reporting
the first failing index and passing when all elements pass (last two
conjuncts). -/
theorem typeFormat_coercion_semantics :
    (∀ s : String, scalarTypeOk (.vStr s) (some "integer") none = true ↔
      ∃ c, ((parseSign (s.toList.dropWhile isWs)).2).head? = some c ∧
        c.isDigit = true) ∧
    (∀ s : String, specFullyParsesInteger s = true →
      scalarTypeOk (.vStr s) (some "integer") none = true) ∧
    (∀ s : String, scalarTypeOk (.vStr s) (some "number") none = true ↔
      ∃ c, ((parseSign (s.toList.dropWhile isWs)).2).head? = some c ∧
        (c.isDigit = true ∨ (c = '.' ∧
          ∃ d, ((parseSign (s.toList.dropWhile isWs)).2).tail.head? = some d ∧
            d.isDigit = true))) ∧
    (∀ v : JVal, scalarTypeOk v (some "boolean") none = true ↔
      (v = .vBool true ∨ v = .vBool false ∨ v = .vStr "true" ∨ v = .vStr "false")) ∧
    (∀ (pre post : List JVal) (el : JVal) (ty fmt : Option String),
      (∀ x ∈ pre, vtfTest x ty fmt = .ok true) →
      vtfTest el ty fmt = .ok false →
      validateTypeAndFormat (.vArr (pre ++ el :: post)) ty fmt = some ⟨"INVALID_TYPE",
        "Value at index " ++ toString pre.length ++ " is not a valid " ++
          tyDisplay ty ++ ": " ++ jsToString el⟩) ∧
    (∀ (l : List JVal) (ty fmt : Option String),
      (∀ x ∈ l, vtfTest x ty fmt = .ok true) →
      validateTypeAndFormat (.vArr l) ty fmt = none) := by
  refine ⟨scalarInt_accepts_iff, ?_, scalarNumber_accepts_iff, ?_, ?_, ?_⟩
  · intro s h
    rw [scalarInt_accepts_iff]
    rcases hp : parseSign s.toList with ⟨sg0, cs0⟩
    simp only [specFullyParsesInteger, hp] at h
    rw [Bool.and_eq_true, Bool.not_eq_true'] at h
    obtain ⟨h1, h2⟩ := h
    rcases cs0 with _ | ⟨c, rest⟩
    · simp at h1
    · have hdrop : s.toList.dropWhile isWs = s.toList := by
        apply dropWhile_of_head_false
        intro cH hcH
        rcases hl : s.toList with _ | ⟨c0, rest0⟩
        · rw [hl] at hcH; cases hcH
        · rw [hl] at hcH
          simp only [List.head?_cons, Option.some_inj] at hcH
          subst hcH
          by_cases e1 : c0 = '-'
          · subst e1; decide
          · by_cases e2 : c0 = '+'
            · subst e2; decide
            · rw [hl] at hp
              rw [show parseSign (c0 :: rest0) = (1, c0 :: rest0) from by
                simp [parseSign, e1, e2]] at hp
              injection hp with hp1 hp2
              injection hp2 with hpa hpb
              rw [List.all_eq_true] at h2
              rw [hpa]
              exact digit_not_ws (h2 c (List.mem_cons_self _ _))
      rw [hdrop, hp]
      rw [List.all_eq_true] at h2
      exact ⟨c, rfl, h2 c (List.mem_cons_self _ _)⟩
  · intro v
    cases v with
    | vBool b => cases b <;> simp [scalarTypeOk]
    | vStr s =>
      simp only [scalarTypeOk, decide_eq_true_eq]
      constructor
      · rintro (h | h) <;> simp [h]
      · rintro (h | h | h | h) <;> simp_all
    | vNum q => simp [scalarTypeOk]
    | vArr l => simp [scalarTypeOk]
    | vObj l => simp [scalarTypeOk]
  · intro pre post el ty fmt hpre hel
    simp only [validateTypeAndFormat, vtfTest]
    rw [vtfList_first_failure ty fmt el hel pre post 0 hpre]
    simp
  · intro l ty fmt h
    simp only [validateTypeAndFormat, vtfTest]
    rw [vtfList_all_ok ty fmt l 0 h]
    rfl

/-- Witness for C5: the fully parsing integer `"42"` is accepted, the
number prefix `"1.5rest"` is accepted via the number characterization, and
the array `[1, "x"]` under item type `integer` fails at index 1. -/
theorem typeFormat_coercion_semantics_witness :
    scalarTypeOk (.vStr "42") (some "integer") none = true ∧
    scalarTypeOk (.vStr "1.5rest") (some "number") none = true ∧
    validateTypeAndFormat (.vArr [.vNum 1, .vStr "x"]) (some "integer") none
      = some ⟨"INVALID_TYPE", "Value at index 1 is not a valid integer: x"⟩ :=
  ⟨typeFormat_coercion_semantics.2.1 "42" (by decide),
   (typeFormat_coercion_semantics.2.2.1 "1.5rest").mpr
     ⟨'1', rfl, Or.inl (by decide)⟩,
   typeFormat_coercion_semantics.2.2.2.2.1 [.vNum 1] [] (.vStr "x")
    (some "integer") none (by intro x hx; simp at hx; subst hx; rfl) rfl⟩

/-- A pointwise-`none` scan finds nothing in any completion order. -/
theorem findSome?_of_all_none {ε : Type} (g : Nat → Option ε)
    (hg : ∀ i, g i = none) : ∀ order : List Nat, order.findSome? g = none := by
  intro order
  induction order with
  | nil => rfl
  | cons i rest ih => simp [List.findSome?_cons, hg i, ih]

/-- A scan over a function that hits exactly at index `k` returns that hit
whenever `k` is scanned, whatever the order. -/
theorem findSome?_of_single {ε : Type} (g : Nat → Option ε) (e : ε) (k : Nat)
    (hg : ∀ i, g i = if i = k then some e else none) :
    ∀ order : List Nat, k ∈ order → order.findSome? g = some e := by
  intro order
  induction order with
  | nil => intro h; cases h
  | cons i rest ih =>
    intro hmem
    by_cases hik : i = k
    · subst hik
      simp [List.findSome?_cons, hg i]
    · have : g i = none := by simp [hg i, hik]
      have hkrest : k ∈ rest := by
        rcases List.mem_cons.mp hmem with h | h
        · exact absurd h.symm hik
        · exact h
      simp [List.findSome?_cons, this, ih hkrest]


/-- Extraction after an all-successful gather: the unit results in
submission order. -/
theorem filterMap_extract {δ ε : Type} (f : δ → Except ε Report) (rep : δ → Report) :
    ∀ subs : List δ, (∀ d ∈ subs, f d = .ok (rep d)) →
      (subs.map f).filterMap exceptToOption = subs.map rep := by
  intro subs
  induction subs with
  | nil => intro _; rfl
  | cons d subs ih =>
    intro h
    have hd : f d = .ok (rep d) := h d (by simp)
    simp only [List.map_cons, List.filterMap_cons, hd, exceptToOption]
    rw [ih fun x hx => h x (by simp [hx])]

/-- C9: sub-document validation gathers per-unit reports by original
submission index: when every unit succeeds, the result is the reports in
submission order whatever the completion order (first conjunct); and a
single failing unit aborts the gather for every completion order covering
the indices, propagating that failure with no partial results (second
conjunct). -/
theorem subDoc_fanout_order_and_failure :
    (∀ (δ ε : Type) (validateDecl : δ → Except ε Report) (rep : δ → Report)
       (subs : List δ), (∀ d ∈ subs, validateDecl d = .ok (rep d)) →
      ∀ order : List Nat,
        validateSubDocs validateDecl order subs = .ok (subs.map rep)) ∧
    (∀ (δ ε : Type) (validateDecl : δ → Except ε Report) (rep : δ → Report)
       (pre post : List δ) (bad : δ) (e : ε),
      validateDecl bad = .error e →
      (∀ d ∈ pre ++ post, validateDecl d = .ok (rep d)) →
      ∀ order : List Nat, order.Perm (List.range (pre ++ bad :: post).length) →
        validateSubDocs validateDecl order (pre ++ bad :: post) = .error e) := by
  constructor
  · intro δ ε validateDecl rep subs hall order
    have hnone : firstErrorBy order (subs.map validateDecl) = none := by
      unfold firstErrorBy
      apply findSome?_of_all_none
      intro i
      rcases hd : subs[i]? with _ | d
      · simp [List.getElem?_map, hd]
      · simp [List.getElem?_map, hd, hall d (List.getElem?_mem hd)]
    unfold validateSubDocs asyncMapModel
    rw [hnone]
    exact congrArg Except.ok (filterMap_extract validateDecl rep subs hall)
  · intro δ ε validateDecl rep pre post bad e hbad hok order hperm
    have hsingle : firstErrorBy order ((pre ++ bad :: post).map validateDecl)
        = some e := by
      unfold firstErrorBy
      apply findSome?_of_single _ e pre.length
      · intro i
        rcases Nat.lt_trichotomy i pre.length with hlt | heq | hgt
        · have h1 : ((pre ++ bad :: post).map validateDecl)[i]?
              = (pre.map validateDecl)[i]? := by
            rw [List.map_append]
            exact List.getElem?_append_left (by simpa using hlt)
          rw [h1, List.getElem?_map]
          rcases hd : pre[i]? with _ | d
          · simp [hd, Nat.ne_of_lt hlt]
          · simp [hd, hok d (List.mem_append_left _ (List.getElem?_mem hd)),
              Nat.ne_of_lt hlt]
        · subst heq
          have h1 : ((pre ++ bad :: post).map validateDecl)[pre.length]?
              = some (validateDecl bad) := by
            rw [List.map_append, List.getElem?_append_right (by simp)]
            simp
          rw [h1, hbad]
          simp
        · have h1 : ((pre ++ bad :: post).map validateDecl)[i]?
              = (post.map validateDecl)[i - pre.length - 1]? := by
            rcases Nat.exists_eq_add_of_lt hgt with ⟨k, hk⟩
            subst hk
            rw [List.map_append,
              List.getElem?_append_right (by simp only [List.length_map]; omega)]
            simp only [List.length_map, List.map_cons]
            rw [show pre.length + k + 1 - pre.length = k + 1 from by omega,
              Nat.add_sub_cancel]
            exact List.getElem?_cons_succ
          rw [h1, List.getElem?_map]
          rcases hd : post[i - pre.length - 1]? with _ | d
          · simp [hd, Nat.ne_of_gt hgt]
          · simp [hd, hok d (List.mem_append_right _ (List.getElem?_mem hd)),
              Nat.ne_of_gt hgt]
      · rw [hperm.mem_iff, List.mem_range, List.length_append, List.length_cons]
        omega
    unfold validateSubDocs asyncMapModel
    rw [hsingle]

/-- Witness for C9: two successful units gather in submission order under
the reversed completion order, and a middle failure aborts a three-unit
gather under a shuffled completion order. -/
theorem subDoc_fanout_order_and_failure_witness :
    validateSubDocs
        (fun d : Nat => (Except.ok ⟨[(⟨"R", toString d⟩, [])], []⟩ : Except String Report))
        [1, 0] [10, 20]
      = .ok [⟨[(⟨"R", "10"⟩, [])], []⟩, ⟨[(⟨"R", "20"⟩, [])], []⟩] ∧
    validateSubDocs
        (fun d : Nat => (if d = 11 then Except.error "boom"
          else Except.ok ⟨[(⟨"R", toString d⟩, [])], []⟩ : Except String Report))
        [2, 0, 1] [10, 11, 12]
      = .error "boom" :=
  ⟨subDoc_fanout_order_and_failure.1 Nat String _
      (fun d => ⟨[(⟨"R", toString d⟩, [])], []⟩) [10, 20]
      (by intro d hd
          simp only [List.mem_cons, List.not_mem_nil, or_false] at hd
          rcases hd with rfl | rfl <;> rfl) [1, 0],
   subDoc_fanout_order_and_failure.2 Nat String _
      (fun d => ⟨[(⟨"R", toString d⟩, [])], []⟩) [10] [12] 11 "boom" rfl
      (by intro d hd
          simp only [List.cons_append, List.nil_append, List.mem_cons,
            List.not_mem_nil, or_false] at hd
          rcases hd with rfl | rfl <;> rfl) [2, 0, 1] (by decide)⟩


/-- Membership in the property list of a list of composed schemas. -/
theorem mem_csPropsList {x : String} :
    ∀ cs : List CSchema, x ∈ csPropsList cs ↔ ∃ c ∈ cs, x ∈ csProps c := by
  intro cs
  induction cs with
  | nil => simp [csPropsList]
  | cons c cs ih => simp [csPropsList, List.mem_append, ih]

/-- The property set of a composed model: with the lineage coherence that
`E`'s memoized computation provides for a single-inheritance chain (each
ancestor's lineage is the corresponding prefix), and enough fuel, the
composed schema's property set is exactly the model's own properties
together with every lineage ancestor's. -/
theorem composeF_props_mem (own lin : String → List String) :
    ∀ (fuel : Nat) (l : List String) (m : String),
      lin m = l →
      (∀ (i : Nat) (hi : i < l.length), lin (l.get ⟨i, hi⟩) = l.take i) →
      l.length ≤ fuel →
      ∀ x, x ∈ csProps (composeF own lin fuel m) ↔
        x ∈ own m ∨ ∃ a ∈ l, x ∈ own a := by
  intro fuel
  induction fuel with
  | zero =>
    intro l m hm hchain hlen x
    have hl : l = [] := List.eq_nil_of_length_eq_zero (Nat.le_zero.mp hlen)
    subst hl
    simp [composeF, csProps, csPropsList]
  | succ fuel ih =>
    intro l m hm hchain hlen x
    simp only [composeF, hm, csProps]
    rw [List.mem_append]
    have key : ∀ (i : Nat) (hi : i < l.length),
        x ∈ csProps (composeF own lin fuel (l.get ⟨i, hi⟩)) ↔
          x ∈ own (l.get ⟨i, hi⟩) ∨ ∃ b ∈ l.take i, x ∈ own b := by
      intro i hi
      apply ih (l.take i) (l.get ⟨i, hi⟩) (hchain i hi)
      · intro j hj
        have hj2 : j < i ∧ j < l.length := by
          simpa [List.length_take] using hj
        have hj' : j < i := hj2.1
        have hjl : j < l.length := hj2.2
        have hget : (l.take i).get ⟨j, hj⟩ = l.get ⟨j, hjl⟩ := by
          simp only [List.get_eq_getElem]
          exact (List.getElem_take' l hjl hj').symm
        rw [hget, hchain j hjl, List.take_take]
        congr 1
        omega
      · simp only [List.length_take]
        omega
    constructor
    · rintro (hx | hx)
      · exact Or.inl hx
      · rw [mem_csPropsList] at hx
        obtain ⟨c, hc, hxc⟩ := hx
        rw [List.mem_map] at hc
        obtain ⟨a, ha, rfl⟩ := hc
        obtain ⟨⟨i, hi⟩, rfl⟩ := List.mem_iff_get.mp ha
        rw [key i hi] at hxc
        rcases hxc with h | ⟨b, hb, hxb⟩
        · exact Or.inr ⟨l.get ⟨i, hi⟩, List.get_mem _ _ _, h⟩
        · exact Or.inr ⟨b, List.take_subset _ _ hb, hxb⟩
    · rintro (hx | ⟨a, ha, hxa⟩)
      · exact Or.inl hx
      · right
        rw [mem_csPropsList]
        refine ⟨composeF own lin fuel a, List.mem_map_of_mem _ ha, ?_⟩
        obtain ⟨⟨i, hi⟩, rfl⟩ := List.mem_iff_get.mp ha
        rw [key i hi]
        exact Or.inl hxa

/-- C2: on a valid document (single-inheritance lineage coherence as the
registry memoizes it; no child redeclares an ancestor's property, the
validator-enforced invariant; property keys of each node unique, as
JavaScript object keys are), the composed schema's property set equals the
union of the model's own properties and every lineage ancestor's own
properties (first conjunct, with the current node's own declarations
listed first), and that union is duplicate-free: no property appears twice
(second conjunct). -/
theorem compose_conflict_free (own lin : String → List String) (m : String)
    (fuel : Nat)
    (hchain : ∀ (i : Nat) (hi : i < (lin m).length),
      lin ((lin m).get ⟨i, hi⟩) = (lin m).take i)
    (hlen : (lin m).length ≤ fuel)
    (hnd : ∀ x ∈ m :: lin m, (own x).Nodup)
    (hred : ∀ x ∈ m :: lin m, ∀ y ∈ lin x, ∀ p ∈ own x, p ∉ own y) :
    (∀ x, x ∈ csProps (composeF own lin fuel m) ↔
      x ∈ own m ++ (lin m).flatMap own) ∧
    (own m ++ (lin m).flatMap own).Nodup := by
  constructor
  · intro x
    rw [composeF_props_mem own lin fuel (lin m) m rfl hchain hlen x,
      List.mem_append, List.mem_flatMap]
  · rw [List.nodup_append]
    refine ⟨hnd m (by simp), ?_, ?_⟩
    · rw [List.nodup_flatMap]
      refine ⟨fun a ha => hnd a (by simp [ha]), ?_⟩
      rw [List.pairwise_iff_get]
      intro i j hij
      have hmem_take : (lin m).get i ∈ (lin m).take j.1 := by
        have hlt : i.1 < ((lin m).take j.1).length := by
          simp only [List.length_take]
          omega
        have : (lin m).get i = ((lin m).take j.1).get ⟨i.1, hlt⟩ := by
          simp only [List.get_eq_getElem]
          exact List.getElem_take' _ i.2 hij
        rw [this]
        exact List.get_mem _ _ _
      have hj_mem : (lin m).get j ∈ m :: lin m := by
        simp [List.get_mem]
      have hdisj : ∀ p ∈ own ((lin m).get j), p ∉ own ((lin m).get i) := by
        intro p hp
        exact hred ((lin m).get j) hj_mem ((lin m).get i)
          (by rw [hchain j.1 j.2]; exact hmem_take) p hp
      exact List.Disjoint.symm hdisj
    · intro p hp hpb
      rw [List.mem_flatMap] at hpb
      obtain ⟨a, ha, hpa⟩ := hpb
      exact hred m (by simp) a ha p hp hpa

/-- Witness for C2: the three-model chain `A → B → C` composes to the
property set `{pa, pc, pb}` with no duplicates. -/
theorem compose_conflict_free_witness :
    (∀ x, x ∈ csProps (composeF ownW linW 2 "A") ↔
      x ∈ ownW "A" ++ (linW "A").flatMap ownW) ∧
    (ownW "A" ++ (linW "A").flatMap ownW).Nodup :=
  compose_conflict_free ownW linW "A" 2 (by decide) (by decide) (by decide)
    (by decide)

end SwaggerTools
